import Mathlib

/-!
Shallow embedding of the py4cast statistics and rollout code.

Conventions of the embedding:
* Machine floats are modelled by exact rationals; a possible NaN is modelled
  by `Option ℚ` (`none` is NaN, `some q` is the finite value `q`).
* The values `+inf` and `-inf` used by the min/max substitution are modelled
  by the order completion `WithBot (WithTop ℚ)` (top is `+inf`, bot is `-inf`).
* Tensors are flattened per feature: one feature column of one sample is a
  `List (Option ℚ)`; a batch is a list of samples; a dataset is a list of
  batches.  All statistics in `compute_dataset_stats.py` act per feature and
  independently across features, so the embedding follows one feature column.
-/

namespace Py4cast

/-- A possibly-missing float value: `none` models NaN. -/
abbrev Val := Option ℚ

/-- One feature column of one sample, all non-feature axes flattened. -/
abbrev Sample := List Val

/-- One feature column of one batch: a list of samples. -/
abbrev BatchS := List Sample

/-- The rationals extended with `+inf` (top) and `-inf` (bot), the codomain of
the `torch.nan_to_num(…, ±inf)` substitutions. -/
abbrev QInf := WithBot (WithTop ℚ)

/-- Embed a rational into `QInf`. -/
def toQInf (q : ℚ) : QInf := ((q : WithTop ℚ) : QInf)

/-- Model of `torch.nan_to_num(t, torch.inf)`: missing becomes `+inf`. -/
def subPosInf (v : Val) : QInf :=
  match v with
  | none => (⊤ : QInf)
  | some q => toQInf q

/-- Model of `torch.nan_to_num(t, -torch.inf)`: missing becomes `-inf`. -/
def subNegInf (v : Val) : QInf :=
  match v with
  | none => (⊥ : QInf)
  | some q => toQInf q

/-- Minimum of a list of extended rationals (empty list gives `+inf`). -/
def minList (l : List QInf) : QInf := l.foldr min (⊤ : QInf)

/-- Maximum of a list of extended rationals (empty list gives `-inf`). -/
def maxList (l : List QInf) : QInf := l.foldr max (⊥ : QInf)

/-- The entries of a sample that are not missing. -/
def nonMissing (s : Sample) : List ℚ := s.filterMap id

/-- Model of `torch.Tensor.nanmean` along the flattened axis: the mean of the
non-missing entries, NaN (`none`) when every entry is missing. -/
def nanmean (s : Sample) : Option ℚ :=
  if (nonMissing s).length = 0 then none
  else some ((nonMissing s).sum / ((nonMissing s).length : ℚ))

/-- Model of `torch.nansum` along the sample axis: NaN contributions count
as zero. -/
def nansumOpt (l : List (Option ℚ)) : ℚ := (l.filterMap id).sum

/-- Elementwise square of a sample (`tensor**2`); NaN squares to NaN. -/
def sampleSq (s : Sample) : Sample := s.map (Option.map (fun q => q ^ 2))

/-- The contribution of one sample to `sum_means` (its nanmean, with the NaN
case contributing zero through the outer `nansum`). -/
def contribMean (s : Sample) : ℚ := (nanmean s).getD 0

/-- The contribution of one sample to `sum_squares` (nanmean of its squares,
with the NaN case contributing zero through the outer `nansum`). -/
def contribSq (s : Sample) : ℚ := (nanmean (sampleSq s)).getD 0

/-- The per-batch partial statistic returned by `compute_stats_worker`
(for one feature). -/
structure StatsPartial where
  counter : ℕ
  sumMeans : ℚ
  sumSquares : ℚ
  mini : QInf
  maxi : QInf
deriving DecidableEq

/-- Embedding of `compute_stats_worker` (compute_dataset_stats.py lines
13-28), one feature column.  `counter` is the batch size; the mean and
square sums use nan-aware reductions over every sample; the min and max are
taken from `torch.min(nan_to_num(t, ±inf), 1).values[0]`, i.e. only from the
first sample of the batch (`.values[0]` selects sample index 0). -/
def computeStatsWorker (batch : BatchS) : StatsPartial :=
  { counter := batch.length
    sumMeans := nansumOpt (batch.map nanmean)
    sumSquares := nansumOpt (batch.map (fun s => nanmean (sampleSq s)))
    mini := minList ((batch.headD []).map subPosInf)
    maxi := maxList ((batch.headD []).map subNegInf) }

/-- The merge performed by the accumulation loop of `compute_mean_std_min_max`
(lines 84-92): counters add, mean sums add, square sums add, min and max
reduce pointwise. -/
def mergeStats (a b : StatsPartial) : StatsPartial :=
  { counter := a.counter + b.counter
    sumMeans := a.sumMeans + b.sumMeans
    sumSquares := a.sumSquares + b.sumSquares
    mini := min a.mini b.mini
    maxi := max a.maxi b.maxi }

/-- The neutral partial statistic: zero counts and sums, `+inf` min,
`-inf` max. -/
def statsZero : StatsPartial :=
  { counter := 0, sumMeans := 0, sumSquares := 0
    mini := (⊤ : QInf), maxi := (⊥ : QInf) }

/-- The initial accumulator state of `compute_mean_std_min_max` (lines
52-58): zero counter and sums, and min/max initialised from the whole first
batch (`flatten(0, ndim_features - 1)` flattens every non-feature axis, so
every sample of the first batch contributes here). -/
def initStats (firstBatch : BatchS) : StatsPartial :=
  { counter := 0, sumMeans := 0, sumSquares := 0
    mini := minList (firstBatch.flatten.map subPosInf)
    maxi := maxList (firstBatch.flatten.map subNegInf) }

/-- Model of `torch.sqrt` on an exact radicand, tracking only what the
claims need: `none` models the NaN produced by a negative radicand, and
`some v` records the nonnegative radicand `v`, standing for the well-defined
value `√v ≥ 0` (the root itself is irrational in general, so the radicand is
kept instead of the root). -/
def sqrtNaN (v : ℚ) : Option ℚ := if v < 0 then none else some v

/-- Final mean of `compute_mean_std_min_max` (line 99):
`mean = sum_means / counter`. -/
def finalizeMean (p : StatsPartial) : ℚ := p.sumMeans / (p.counter : ℚ)

/-- Final variance of `compute_mean_std_min_max` (lines 100-101):
`second_moment - mean ** 2` with `second_moment = sum_squares / counter`. -/
def finalizeVariance (p : StatsPartial) : ℚ :=
  p.sumSquares / (p.counter : ℚ) - finalizeMean p ^ 2

/-- Final standard deviation (line 101): `torch.sqrt(second_moment - mean**2)`
with no clamping of a negative radicand. -/
def finalizeStd (p : StatsPartial) : Option ℚ := sqrtNaN (finalizeVariance p)

/-- Modelled from the spec: the clamped standard deviation
`std = sqrt(max(variance, 0))` that section 4.1 of the spec prescribes.
This definition follows the spec words and is compared against the
code-derived `finalizeStd`; the code itself contains no such clamp. -/
def stdClampedSpec (v : ℚ) : Option ℚ := some (max v 0)

/-- The per-feature entry of the persisted statistics table
(lines 103-110). -/
structure FeatureStats where
  mean : ℚ
  std : Option ℚ
  min : QInf
  max : QInf
deriving DecidableEq

/-- Final reduction of the accumulated partial into the per-feature record. -/
def finalize (p : StatsPartial) : FeatureStats :=
  { mean := finalizeMean p, std := finalizeStd p, min := p.mini, max := p.maxi }

/-- A dataset as seen by the statistics procedures: the `standardize` flag of
its settings and its batches (one feature column). -/
structure StatsDataset where
  standardize : Bool
  batches : List BatchS

/-- Embedding of `compute_mean_std_min_max` (lines 30-112), one feature
column.  `next(iter(...))` on an empty loader raises StopIteration; a
standardized dataset raises the precondition ValueError (line 68-69) before
any worker result is merged; otherwise the worker results are folded with
`mergeStats` starting from the first-batch initialisation and the final
mean/std/min/max are produced. -/
def computeMeanStdMinMax (ds : StatsDataset) : Except String FeatureStats :=
  match ds.batches with
  | [] => .error "StopIteration"
  | first :: _ =>
    if ds.standardize then .error "Your dataset should not be standardized."
    else
      .ok (finalize
        ((ds.batches.map computeStatsWorker).foldl mergeStats (initStats first)))

/-- The categories iterated by `compute_parameters_stats` (line 122). -/
def statCategories : List String := ["inputs", "outputs", "forcing"]

/-- The guard of the feature-deduplication branch of `compute_mean_std_min_max`
(line 41): `if type_tensor == "output":`. -/
def outputBranchCond (typeTensor : String) : Bool := typeTensor == "output"

/-- Model of the Python dict union `a | b`: keys of `a` first, with the value
from `b` when the key is also in `b`, followed by the keys of `b` absent
from `a`. -/
def pyDictUnion {α : Type} (a b : List (String × α)) : List (String × α) :=
  a.map (fun kv => (kv.1, (b.lookup kv.1).getD kv.2)) ++
    b.filter (fun kv => (a.lookup kv.1).isNone)

/-- The dict accumulation of `compute_parameters_stats` (lines 119-124):
starting from an empty table, for each category in order the update is
`all_stats = stats_dict | all_stats`, so the already-accumulated table takes
precedence on shared keys.  `statsFor` abstracts the per-category table
returned by `compute_mean_std_min_max`. -/
def computeParametersStats {α : Type} (statsFor : String → List (String × α)) :
    List (String × α) :=
  statCategories.foldl (fun allStats cat => pyDictUnion (statsFor cat) allStats) []

/-- Model of the whole `compute_parameters_stats` run (lines 115-128) with a
per-category dataset view: each category computes its statistics (which may
raise) and merges them; persisting the table is the final `.ok`, so an error
in any category prevents persistence. -/
def computeParametersStatsRun (dsOf : String → StatsDataset)
    (nameOf : String → String) : Except String (List (String × FeatureStats)) :=
  match computeMeanStdMinMax (dsOf "inputs") with
  | .error e => .error e
  | .ok stIn =>
    match computeMeanStdMinMax (dsOf "outputs") with
    | .error e => .error e
    | .ok stOut =>
      match computeMeanStdMinMax (dsOf "forcing") with
      | .error e => .error e
      | .ok stForc =>
        .ok (pyDictUnion [(nameOf "forcing", stForc)]
              (pyDictUnion [(nameOf "outputs", stOut)]
                (pyDictUnion [(nameOf "inputs", stIn)] [])))

/-- NaN-propagating subtraction on possibly-missing values
(`in_out[:, 1:] - in_out[:, :-1]`). -/
def subVal (a b : Val) : Val :=
  match a, b with
  | some x, some y => some (x - y)
  | _, _ => none

/-- One sample of `compute_time_step_stats`: the time-major slices of its
inputs and outputs tensors (one feature column, spatial axes flattened per
time step). -/
structure DiffSample where
  inputsT : List (List Val)
  outputsT : List (List Val)

/-- The flattened temporal differences of one sample: concatenate inputs and
outputs along the time axis (`torch.cat([inputs, outputs], dim=1)`), subtract
consecutive time steps, and flatten the remaining axes. -/
def diffFlat (s : DiffSample) : Sample :=
  let inOut := s.inputsT ++ s.outputsT
  (List.zipWith (fun nxt prv => List.zipWith subVal nxt prv) inOut.tail inOut).flatten

/-- A dataset as seen by `compute_time_step_stats`. -/
structure DiffDataset where
  standardize : Bool
  batches : List (List DiffSample)

/-- The moment accumulation shared by the statistics procedures: counter,
sum of per-sample nanmeans and sum of per-sample nanmeans of squares, folded
over the batches in order. -/
def momentsStep (a : ℕ × ℚ × ℚ) (b : BatchS) : ℕ × ℚ × ℚ :=
  (a.1 + b.length,
   a.2.1 + nansumOpt (b.map nanmean),
   a.2.2 + nansumOpt (b.map (fun s => nanmean (sampleSq s))))

/-- The moment accumulation loop over the batches, starting from zero. -/
def momentsAcc (batches : List BatchS) : ℕ × ℚ × ℚ :=
  batches.foldl momentsStep (0, 0, 0)

/-- Embedding of `compute_time_step_stats` (lines 131-170), one feature
column: a dataset that is not standardized raises the precondition ValueError
(lines 137-138) before the accumulation loop and before anything is saved;
otherwise the temporal differences are accumulated with the same nan-aware
moment sums and reduced to `(diff_mean, diff_std)` with the same unclamped
`torch.sqrt` (lines 153-155). -/
def computeTimeStepStats (dd : DiffDataset) : Except String (ℚ × Option ℚ) :=
  match dd.batches with
  | [] => .error "StopIteration"
  | _ :: _ =>
    if !dd.standardize then .error "Your dataset should be standardized."
    else
      let acc := momentsAcc (dd.batches.map (List.map diffFlat))
      let diffMean := acc.2.1 / (acc.1 : ℚ)
      .ok (diffMean, sqrtNaN (acc.2.2 / (acc.1 : ℚ) - diffMean ^ 2))

/-! Embedding of `AutoRegressiveLightning.common_step` (pnia/lightning.py
lines 142-202).  A full grid state (one sample-point-feature index space,
collapsed into an abstract index type `ι`) is a function `ι → ℚ`.  The
concatenation along the feature axis that builds the model input is injective
for fixed shapes, so the model is embedded as a function of its three parts:
the window slices, the (batch-sliced) static grid features and the forcing of
the step. -/

/-- A full-grid state: batch, grid-point and feature axes collapsed into `ι`. -/
abbrev St (ι : Type) := ι → ℚ

/-- One batch of the rollout: the step counts read from the batch object
(`batch.num_input_steps`, `batch.num_pred_steps`) and the raw state tensors. -/
structure ARBatch (ι : Type) where
  numInputSteps : ℕ
  numPredSteps : ℕ
  initStates : List (St ι)
  targetStates : List (St ι)
  forcingFeatures : List (St ι)

/-- The fixed context of `common_step`: the registered buffers (masks, diff
statistics, static grid features), the model forward pass, and the model
`transform_batch` hook. -/
structure ARConfig (ι : Type) where
  model : List (St ι) → St ι → St ι → St ι
  statics : St ι
  borderMask : St ι
  interiorMask : St ι
  stepDiffStd : St ι
  stepDiffMean : St ι
  transformBatch : ARBatch ι → List (St ι) × List (St ι) × List (St ι)

/-- Python-style exact slicing by indexing `window[:, idx]` for
`idx in range(n)`: succeeds with the first `n` entries when the list is long
enough, fails (IndexError) otherwise. -/
def takeExact {α : Type} (l : List α) (n : ℕ) : Option (List α) :=
  if n ≤ l.length then some (l.take n) else none

/-- One iteration body of the rollout loop (lines 165-189): build the model
input from the first `num_input_steps` window slices, the statics and the
forcing; run the model; rescale
(`predicted_state = prev_states[:, -1] + y * step_diff_std + step_diff_mean`);
blend (`border_mask * border_state + interior_mask * predicted_state`).
Fails when the window lacks a slice (`prev_states[:, idx]` or
`prev_states[:, -1]` out of range). -/
def arStep {ι : Type} (cfg : ARConfig ι) (nInput : ℕ) (window : List (St ι))
    (border forcing : St ι) : Option (St ι) :=
  match takeExact window nInput, window.getLast? with
  | some slices, some prev =>
    let y := cfg.model slices cfg.statics forcing
    some (fun p =>
      cfg.borderMask p * border p +
        cfg.interiorMask p *
          (prev p + y p * cfg.stepDiffStd p + cfg.stepDiffMean p))
  | _, _ => none

/-- The rollout loop (lines 163-196): at index `i` with `remaining` steps
left, read `target_states[:, i]` and `forcing_features[:, i]` (IndexError when
out of range), run one step, append the new state, and slide the window
(`prev_states[:, 1:]` plus the new state) unless this was the last step. -/
def arLoop {ι : Type} (cfg : ARConfig ι) (nInput : ℕ)
    (targets forcings : List (St ι)) :
    ℕ → ℕ → List (St ι) → List (St ι) → Option (List (St ι))
  | _, 0, _, acc => some acc.reverse
  | i, r + 1, window, acc =>
    match targets[i]?, forcings[i]? with
    | some border, some forcing =>
      match arStep cfg nInput window border forcing with
      | some newState =>
        arLoop cfg nInput targets forcings (i + 1) r
          (if r = 0 then window else window.drop 1 ++ [newState])
          (newState :: acc)
      | none => none
    | _, _ => none

/-- Embedding of `common_step`: transform the batch, run
`batch.num_pred_steps` loop iterations starting from the init states, stack
the prediction list in step order and return it with the unmodified target
states. -/
def commonStep {ι : Type} (cfg : ARConfig ι) (batch : ARBatch ι) :
    Option (List (St ι) × List (St ι)) :=
  let tb := cfg.transformBatch batch
  match arLoop cfg batch.numInputSteps tb.2.1 tb.2.2 0 batch.numPredSteps tb.1 [] with
  | some preds => some (preds, tb.2.1)
  | none => none

/-- The all-zero grid state. -/
def zeroSt (ι : Type) : St ι := fun _ => 0

/-- Closed-form step update used to specify the loop: the blend of the border
truth with the rescaled model output on the current window. -/
def stepFormula {ι : Type} (cfg : ARConfig ι) (nInput : ℕ)
    (window : List (St ι)) (border forcing : St ι) : St ι :=
  fun p =>
    cfg.borderMask p * border p +
      cfg.interiorMask p *
        ((window.getLast?.getD (zeroSt ι)) p +
          cfg.model (window.take nInput) cfg.statics forcing p *
            cfg.stepDiffStd p +
          cfg.stepDiffMean p)

/-- The sliding window before step `i` of the rollout: the init states at
step 0, then drop the oldest entry and append the step output. -/
def windowSeq {ι : Type} (cfg : ARConfig ι) (nInput : ℕ)
    (targets forcings init : List (St ι)) : ℕ → List (St ι)
  | 0 => init
  | i + 1 =>
    (windowSeq cfg nInput targets forcings init i).drop 1 ++
      [stepFormula cfg nInput (windowSeq cfg nInput targets forcings init i)
        (targets.getD i (zeroSt ι)) (forcings.getD i (zeroSt ι))]

/-- The state appended to the prediction sequence at step `i`. -/
def predAt {ι : Type} (cfg : ARConfig ι) (nInput : ℕ)
    (targets forcings init : List (St ι)) (i : ℕ) : St ι :=
  stepFormula cfg nInput (windowSeq cfg nInput targets forcings init i)
    (targets.getD i (zeroSt ι)) (forcings.getD i (zeroSt ι))

/-! Embedding of `WW3Accessor.load_data_from_disk`
(py4cast/datasets/ww3/__init__.py lines 114-144), per requested date: read the
2-D field, replace NaN entries by 0 (`np.nan_to_num(arr, nan=0)`), reverse the
latitude axis (`arr[::-1]`), append a trailing feature axis
(`np.expand_dims(arr, axis=-1)`), and stack the per-date arrays. -/

/-- A 2-D field as read from disk: latitude rows of longitude entries, each
possibly NaN. -/
abbrev NpArr2 := List (List Val)

/-- Model of `np.nan_to_num(v, nan=0)` on one entry. -/
def nanToNum0 (v : Val) : Val := some (v.getD 0)

/-- Embedding of `load_data_from_disk`: the input is the per-date sequence of
raw fields selected by the timestamps. -/
def loadDataFromDisk (fields : List NpArr2) : List (List (List (List Val))) :=
  fields.map (fun arr =>
    let a1 := arr.map (fun row => row.map nanToNum0)
    let a2 := a1.reverse
    a2.map (fun row => row.map (fun v => [v])))

/-! Concrete instances used by counterexamples and witnesses. -/

/-- A partial statistic with a negative accumulated variance
(`1/1 - (2/1)^2 = -3`), as floating-point cancellation could produce. -/
def pNegVar : StatsPartial :=
  { counter := 1, sumMeans := 2, sumSquares := 1
    mini := (⊤ : QInf), maxi := (⊥ : QInf) }

/-- Two-batch dataset: the minimum 3 sits in the second sample of the second
batch, which the worker never inspects. -/
def dsC2 : StatsDataset :=
  { standardize := false
    batches := [[[some 5]], [[some 4], [some 3]]] }

/-- A raw (unstandardized) one-sample dataset. -/
def dsRawW : StatsDataset := { standardize := false, batches := [[[some 1]]] }

/-- A standardized one-sample dataset. -/
def dsStdW : StatsDataset := { standardize := true, batches := [[[some 1]]] }

/-- A standardized one-sample temporal-difference dataset. -/
def ddStdW : DiffDataset :=
  { standardize := true
    batches := [[{ inputsT := [[some 0]], outputsT := [[some 1]] }]] }

/-- An unstandardized one-sample temporal-difference dataset. -/
def ddRawW : DiffDataset :=
  { standardize := false
    batches := [[{ inputsT := [[some 0]], outputsT := [[some 1]] }]] }

/-- Two concrete partial statistics used by the order-independence witness. -/
def pW1 : StatsPartial :=
  { counter := 1, sumMeans := 1, sumSquares := 1
    mini := toQInf 0, maxi := toQInf 1 }

/-- Two concrete partial statistics used by the order-independence witness. -/
def pW2 : StatsPartial :=
  { counter := 2, sumMeans := 3, sumSquares := 5
    mini := toQInf (-1), maxi := toQInf 2 }

/-- A rollout context over a one-point grid with a zero model, identity
batch transform, border mask 1 and interior mask 0. -/
def cfgC3 : ARConfig Unit :=
  { model := fun _ _ _ => fun _ => 0
    statics := fun _ => 0
    borderMask := fun _ => 1
    interiorMask := fun _ => 0
    stepDiffStd := fun _ => 1
    stepDiffMean := fun _ => 0
    transformBatch := fun b => (b.initStates, b.targetStates, b.forcingFeatures) }

/-- A batch whose target and forcing sequences hold two steps although
`num_pred_steps` is 1: the shapes are inconsistent with the configuration. -/
def batchC3 : ARBatch Unit :=
  { numInputSteps := 1
    numPredSteps := 1
    initStates := [fun _ => 0]
    targetStates := [fun _ => 5, fun _ => 7]
    forcingFeatures := [fun _ => 1, fun _ => 2] }

/-- A rollout context over a one-point grid with a zero model and
complementary masks, used by the blend witness. -/
def cfgW4 : ARConfig Unit :=
  { model := fun _ _ _ => fun _ => 0
    statics := fun _ => 0
    borderMask := fun _ => 1
    interiorMask := fun _ => 0
    stepDiffStd := fun _ => 2
    stepDiffMean := fun _ => 3
    transformBatch := fun b => (b.initStates, b.targetStates, b.forcingFeatures) }

/-- A consistent one-step batch used by the blend witness. -/
def batchW4 : ARBatch Unit :=
  { numInputSteps := 1
    numPredSteps := 1
    initStates := [fun _ => 4]
    targetStates := [fun _ => 5]
    forcingFeatures := [fun _ => 6] }

/-- A rollout context over a one-point grid used by the rollout-length
witness. -/
def cfgW6 : ARConfig Unit :=
  { model := fun _ _ _ => fun _ => 1
    statics := fun _ => 0
    borderMask := fun _ => 0
    interiorMask := fun _ => 1
    stepDiffStd := fun _ => 1
    stepDiffMean := fun _ => 0
    transformBatch := fun b => (b.initStates, b.targetStates, b.forcingFeatures) }

/-- A consistent two-step batch used by the rollout-length witness. -/
def batchW6 : ARBatch Unit :=
  { numInputSteps := 2
    numPredSteps := 2
    initStates := [fun _ => 0, fun _ => 1]
    targetStates := [fun _ => 2, fun _ => 3]
    forcingFeatures := [fun _ => 4, fun _ => 5] }

/-- A one-row field with one missing entry, used by the loader witness. -/
def fieldsW10 : List NpArr2 := [[[some 1, none]]]

end Py4cast

namespace Py4cast

/-! Association-list lemmas for the Python dict-union model. -/

theorem lookup_map_snd {α β : Type} (f : String → α → β) (k : String) :
    ∀ l : List (String × α),
      (l.map (fun kv => (kv.1, f kv.1 kv.2))).lookup k = (l.lookup k).map (f k)
  | [] => by simp
  | (k₀, v₀) :: t => by
    by_cases h : k = k₀
    · subst h; simp [List.lookup]
    · have hb : (k == k₀) = false := beq_false_of_ne h
      simp [List.lookup, hb, lookup_map_snd f k t]

theorem lookup_append {α : Type} (k : String) :
    ∀ x y : List (String × α), (x ++ y).lookup k = (x.lookup k).or (y.lookup k)
  | [], y => by simp
  | (k₀, v₀) :: t, y => by
    by_cases h : k = k₀
    · subst h; simp [List.lookup]
    · have hb : (k == k₀) = false := beq_false_of_ne h
      simp [List.lookup, hb, lookup_append k t y]

theorem lookup_filter_key {α : Type} (p : String → Bool) (k : String) :
    ∀ l : List (String × α),
      (l.filter (fun kv => p kv.1)).lookup k = if p k then l.lookup k else none
  | [] => by simp
  | (k₀, v₀) :: t => by
    by_cases h : k = k₀
    · subst h
      cases hp : p k <;> simp [List.filter, List.lookup, hp, lookup_filter_key p k t]
    · have hb : (k == k₀) = false := beq_false_of_ne h
      cases hp : p k₀ <;>
        simp [List.filter, List.lookup, hb, hp, lookup_filter_key p k t]

theorem lookup_pyDictUnion {α : Type} (a b : List (String × α)) (k : String) :
    (pyDictUnion a b).lookup k = (b.lookup k).or (a.lookup k) := by
  unfold pyDictUnion
  rw [lookup_append, lookup_map_snd (fun key v => (b.lookup key).getD v) k a,
    lookup_filter_key (fun key => (a.lookup key).isNone) k b]
  cases ha : a.lookup k <;> cases hb : b.lookup k <;> simp [ha, hb]

/-- C9: in `compute_parameters_stats` the per-category tables merge as
`stats_dict | all_stats`, where the already-accumulated table wins on shared
keys, so a feature occurring in several categories keeps the entry of the
earliest-processed category (inputs, then outputs, then forcing); moreover
the deduplication branch guarded by `type_tensor == "output"` is never taken,
since every category actually passed is `inputs`, `outputs` or `forcing`. -/
theorem c9_earliest_category_wins :
    (statCategories.all (fun t => !outputBranchCond t)) = true ∧
    (∀ (α : Type) (statsFor : String → List (String × α)) (f : String),
      (computeParametersStats statsFor).lookup f =
        ((statsFor "inputs").lookup f).or
          (((statsFor "outputs").lookup f).or ((statsFor "forcing").lookup f))) := by
  constructor
  · decide
  · intro α statsFor f
    show (pyDictUnion (statsFor "forcing")
        (pyDictUnion (statsFor "outputs")
          (pyDictUnion (statsFor "inputs") ([] : List (String × α))))).lookup f = _
    rw [lookup_pyDictUnion, lookup_pyDictUnion, lookup_pyDictUnion]
    cases h1 : (statsFor "inputs").lookup f <;>
      cases h2 : (statsFor "outputs").lookup f <;> simp [h1, h2]

/-- C7: the nan-aware mean used by the statistics worker excludes missing
entries from both the sum and the divisor: inserting a missing entry anywhere
leaves `nanmean` unchanged; the worker contribution of the sample
`[1, 2, 3, NaN]` is the mean of `[1, 2, 3]`, namely 2; and that differs from
the value `6/4` that treating the missing entry as zero would give. -/
theorem c7_missing_excluded_from_mean :
    (∀ pre post : List Val, nanmean (pre ++ none :: post) = nanmean (pre ++ post)) ∧
    (computeStatsWorker [[some 1, some 2, some 3, none]]).sumMeans = 2 ∧
    (computeStatsWorker [[some 1, some 2, some 3, none]]).sumMeans ≠
      (1 + 2 + 3 + 0) / 4 := by
  have h : nonMissing [some 1, some 2, some 3, none] = [1, 2, 3] := rfl
  refine ⟨?_, ?_, ?_⟩
  · intro pre post
    simp [nanmean, nonMissing, List.filterMap_append]
  · show nansumOpt ([[some 1, some 2, some 3, none]].map nanmean) = 2
    simp only [List.map_cons, List.map_nil, nanmean, h]
    norm_num [nansumOpt, List.filterMap_cons, List.filterMap_nil]
  · show nansumOpt ([[some 1, some 2, some 3, none]].map nanmean) ≠ (1 + 2 + 3 + 0) / 4
    simp only [List.map_cons, List.map_nil, nanmean, h]
    norm_num [nansumOpt, List.filterMap_cons, List.filterMap_nil]

/-- C8: a standardized dataset makes `compute_mean_std_min_max` raise the
precondition ValueError, which also aborts `compute_parameters_stats` before
its persisting step; an unstandardized dataset makes `compute_time_step_stats`
raise its precondition ValueError before its accumulation and persisting. -/
theorem c8_standardize_guards
    (ds : StatsDataset) (dd : DiffDataset)
    (dsOf : String → StatsDataset) (nameOf : String → String)
    (hds : ds.standardize = true) (hne : ds.batches ≠ [])
    (hdsOf : dsOf "inputs" = ds)
    (hdd : dd.standardize = false) (hne2 : dd.batches ≠ []) :
    computeMeanStdMinMax ds = .error "Your dataset should not be standardized." ∧
    computeParametersStatsRun dsOf nameOf =
      .error "Your dataset should not be standardized." ∧
    computeTimeStepStats dd = .error "Your dataset should be standardized." := by
  obtain ⟨f1, r1, hb⟩ : ∃ f r, ds.batches = f :: r := by
    cases h : ds.batches with
    | nil => exact absurd h hne
    | cons f r => exact ⟨f, r, rfl⟩
  obtain ⟨f2, r2, hb2⟩ : ∃ f r, dd.batches = f :: r := by
    cases h : dd.batches with
    | nil => exact absurd h hne2
    | cons f r => exact ⟨f, r, rfl⟩
  have h1 : computeMeanStdMinMax ds =
      .error "Your dataset should not be standardized." := by
    simp [computeMeanStdMinMax, hb, hds]
  refine ⟨h1, ?_, ?_⟩
  · simp [computeParametersStatsRun, hdsOf, h1]
  · simp [computeTimeStepStats, hb2, hdd]

/-- Witness for C8 at concrete datasets. -/
theorem c8_standardize_guards_witness :
    computeMeanStdMinMax dsStdW = .error "Your dataset should not be standardized." ∧
    computeParametersStatsRun (fun _ => dsStdW) id =
      .error "Your dataset should not be standardized." ∧
    computeTimeStepStats ddRawW = .error "Your dataset should be standardized." :=
  c8_standardize_guards dsStdW ddRawW (fun _ => dsStdW) id rfl
    (by simp [dsStdW]) rfl rfl (by simp [ddRawW])

/-! The worker-merge operation is a commutative monoid with `statsZero` as
neutral element: the algebra behind scheduling-order independence. -/

theorem mergeStats_assoc (a b c : StatsPartial) :
    mergeStats (mergeStats a b) c = mergeStats a (mergeStats b c) := by
  cases a; cases b; cases c
  simp [mergeStats, Nat.add_assoc, add_assoc, min_assoc, max_assoc]

theorem mergeStats_comm (a b : StatsPartial) : mergeStats a b = mergeStats b a := by
  cases a; cases b
  simp [mergeStats, Nat.add_comm, add_comm, min_comm, max_comm]

theorem mergeStats_zero_left (a : StatsPartial) : mergeStats statsZero a = a := by
  cases a
  simp [mergeStats, statsZero, min_eq_right le_top, max_eq_right bot_le]

theorem mergeStats_zero_right (a : StatsPartial) : mergeStats a statsZero = a := by
  rw [mergeStats_comm]; exact mergeStats_zero_left a

theorem foldl_mergeStats_eq :
    ∀ (l : List StatsPartial) (e : StatsPartial),
      l.foldl mergeStats e = mergeStats e (l.foldl mergeStats statsZero)
  | [], e => by simp [List.foldl, mergeStats_zero_right]
  | x :: t, e => by
    simp only [List.foldl]
    rw [foldl_mergeStats_eq t (mergeStats e x), foldl_mergeStats_eq t
      (mergeStats statsZero x), mergeStats_zero_left, mergeStats_assoc]

theorem foldl_mergeStats_cons (x : StatsPartial) (l : List StatsPartial) :
    (x :: l).foldl mergeStats statsZero =
      mergeStats x (l.foldl mergeStats statsZero) := by
  simp only [List.foldl]
  rw [mergeStats_zero_left, foldl_mergeStats_eq]

theorem foldl_mergeStats_append (l₁ l₂ : List StatsPartial) :
    (l₁ ++ l₂).foldl mergeStats statsZero =
      mergeStats (l₁.foldl mergeStats statsZero) (l₂.foldl mergeStats statsZero) := by
  rw [List.foldl_append, foldl_mergeStats_eq]

/-- C5: the merge used by `compute_mean_std_min_max` (counters add, mean sums
add, square sums add, min/max reduce pointwise) is associative and
commutative; merging per-chunk partial reductions of any partition of the
worker results equals the single-pass reduction of all results; and the
reduction is invariant under any permutation of the worker results. -/
theorem c5_merge_order_independent :
    (∀ a b c : StatsPartial,
      mergeStats (mergeStats a b) c = mergeStats a (mergeStats b c)) ∧
    (∀ a b : StatsPartial, mergeStats a b = mergeStats b a) ∧
    (∀ parts : List (List StatsPartial),
      (parts.map (fun chunk => chunk.foldl mergeStats statsZero)).foldl
          mergeStats statsZero
        = parts.flatten.foldl mergeStats statsZero) ∧
    (∀ l l2 : List StatsPartial, List.Perm l l2 →
      l.foldl mergeStats statsZero = l2.foldl mergeStats statsZero) := by
  refine ⟨mergeStats_assoc, mergeStats_comm, ?_, ?_⟩
  · intro parts
    induction parts with
    | nil => rfl
    | cons p ps ih =>
      rw [List.map_cons, List.flatten_cons, foldl_mergeStats_cons,
        foldl_mergeStats_append, ih]
  · intro l l2 h
    induction h with
    | nil => rfl
    | cons x _ ih => rw [foldl_mergeStats_cons, foldl_mergeStats_cons, ih]
    | swap x y l =>
      rw [foldl_mergeStats_cons, foldl_mergeStats_cons, foldl_mergeStats_cons,
        foldl_mergeStats_cons, ← mergeStats_assoc, ← mergeStats_assoc,
        mergeStats_comm y x]
    | trans _ _ ih1 ih2 => rw [ih1, ih2]

/-- Witness for C5: the reduction of two concrete worker partials is the same
in either processing order. -/
theorem c5_merge_order_independent_witness :
    [pW1, pW2].foldl mergeStats statsZero = [pW2, pW1].foldl mergeStats statsZero :=
  c5_merge_order_independent.2.2.2 [pW1, pW2] [pW2, pW1] (List.Perm.swap pW2 pW1 [])

/-! Exact-arithmetic nonnegativity of the accumulated variance.  The key
inequalities are the list Cauchy-Schwarz bound and the per-sample bound
`nanmean(s)^2 ≤ nanmean(s^2)`. -/

theorem two_mul_sum_le (a : ℚ) :
    ∀ l : List ℚ,
      2 * a * l.sum ≤ (l.length : ℚ) * a ^ 2 + (l.map (fun x => x ^ 2)).sum
  | [] => by simp
  | x :: t => by
    simp only [List.sum_cons, List.map_cons, List.length_cons]
    have h1 := two_mul_sum_le a t
    have h2 := sq_nonneg (a - x)
    push_cast
    nlinarith

theorem sq_sum_le :
    ∀ l : List ℚ, l.sum ^ 2 ≤ (l.length : ℚ) * (l.map (fun x => x ^ 2)).sum
  | [] => by simp
  | x :: t => by
    simp only [List.sum_cons, List.map_cons, List.length_cons]
    have h1 := sq_sum_le t
    have h2 := two_mul_sum_le x t
    push_cast
    nlinarith [sq_nonneg x]

theorem sum_map_le_sum_map {α : Type} (f g : α → ℚ) :
    ∀ l : List α, (∀ x ∈ l, f x ≤ g x) → (l.map f).sum ≤ (l.map g).sum
  | [], _ => le_refl _
  | x :: t, h => by
    simp only [List.map_cons, List.sum_cons]
    have h1 := h x (by simp)
    have h2 := sum_map_le_sum_map f g t (fun y hy => h y (by simp [hy]))
    linarith

theorem nonMissing_sampleSq :
    ∀ s : Sample, nonMissing (sampleSq s) = (nonMissing s).map (fun x => x ^ 2)
  | [] => rfl
  | v :: t => by
    have ih := nonMissing_sampleSq t
    cases v <;> simp_all [sampleSq, nonMissing]

theorem contribMean_sq_le (s : Sample) : contribMean s ^ 2 ≤ contribSq s := by
  unfold contribMean contribSq nanmean
  rw [nonMissing_sampleSq, List.length_map]
  by_cases hk : (nonMissing s).length = 0
  · simp [hk]
  · have hkpos : 0 < ((nonMissing s).length : ℚ) := by
      have : 0 < (nonMissing s).length := Nat.pos_of_ne_zero hk
      exact_mod_cast this
    simp only [hk, if_false, Option.getD_some]
    rw [div_pow, div_le_div_iff₀ (by positivity) hkpos]
    have h := sq_sum_le (nonMissing s)
    nlinarith

/-- The variance of the accumulated moments of any nonempty sample list is
nonnegative in exact arithmetic. -/
theorem variance_nonneg (samples : List Sample) (h : samples ≠ []) :
    0 ≤ (samples.map contribSq).sum / (samples.length : ℚ) -
      ((samples.map contribMean).sum / (samples.length : ℚ)) ^ 2 := by
  have hn : 0 < (samples.length : ℚ) := by
    have : 0 < samples.length := List.length_pos.mpr h
    exact_mod_cast this
  have hP : ((samples.map contribMean).map (fun x => x ^ 2)).sum ≤
      (samples.map contribSq).sum := by
    rw [List.map_map]
    exact sum_map_le_sum_map _ _ samples (fun s _ => contribMean_sq_le s)
  have hCS := sq_sum_le (samples.map contribMean)
  rw [List.length_map] at hCS
  rw [div_pow, sub_nonneg, div_le_div_iff₀ (by positivity) hn]
  nlinarith

/-! Bridging the fold of worker partials to flat sums over all samples. -/

theorem nansumOpt_eq :
    ∀ l : List (Option ℚ), nansumOpt l = (l.map (fun o => o.getD 0)).sum
  | [] => rfl
  | v :: t => by
    have ih := nansumOpt_eq t
    simp only [nansumOpt] at ih
    cases v <;> simp [nansumOpt, List.filterMap_cons, ih]

theorem nansumOpt_map_nanmean (b : BatchS) :
    nansumOpt (b.map nanmean) = (b.map contribMean).sum := by
  rw [nansumOpt_eq, List.map_map]; rfl

theorem nansumOpt_map_nanmeanSq (b : BatchS) :
    nansumOpt (b.map (fun s => nanmean (sampleSq s))) = (b.map contribSq).sum := by
  rw [nansumOpt_eq, List.map_map]; rfl

theorem sum_map_flatten {α : Type} (f : α → ℚ) (bs : List (List α)) :
    (bs.flatten.map f).sum = (bs.map (fun b => (b.map f).sum)).sum := by
  rw [List.map_flatten, List.sum_flatten, List.map_map]; rfl

theorem foldl_counter :
    ∀ (l : List StatsPartial) (e : StatsPartial),
      (l.foldl mergeStats e).counter = e.counter + (l.map StatsPartial.counter).sum
  | [], e => by simp
  | x :: t, e => by
    simp only [List.foldl, List.map_cons, List.sum_cons]
    rw [foldl_counter t (mergeStats e x)]
    simp [mergeStats]
    omega

theorem foldl_sumMeans :
    ∀ (l : List StatsPartial) (e : StatsPartial),
      (l.foldl mergeStats e).sumMeans = e.sumMeans + (l.map StatsPartial.sumMeans).sum
  | [], e => by simp
  | x :: t, e => by
    simp only [List.foldl, List.map_cons, List.sum_cons]
    rw [foldl_sumMeans t (mergeStats e x)]
    simp [mergeStats]
    ring

theorem foldl_sumSquares :
    ∀ (l : List StatsPartial) (e : StatsPartial),
      (l.foldl mergeStats e).sumSquares = e.sumSquares + (l.map StatsPartial.sumSquares).sum
  | [], e => by simp
  | x :: t, e => by
    simp only [List.foldl, List.map_cons, List.sum_cons]
    rw [foldl_sumSquares t (mergeStats e x)]
    simp [mergeStats]
    ring

theorem statsAcc_counter (first : BatchS) (bs : List BatchS) :
    ((bs.map computeStatsWorker).foldl mergeStats (initStats first)).counter =
      bs.flatten.length := by
  rw [foldl_counter, List.map_map, List.length_flatten]
  simp [initStats]
  rfl

theorem statsAcc_sumMeans (first : BatchS) (bs : List BatchS) :
    ((bs.map computeStatsWorker).foldl mergeStats (initStats first)).sumMeans =
      (bs.flatten.map contribMean).sum := by
  rw [foldl_sumMeans, List.map_map, sum_map_flatten]
  simp only [initStats, zero_add]
  have h : List.map (StatsPartial.sumMeans ∘ computeStatsWorker) bs
      = List.map (fun b => (List.map contribMean b).sum) bs :=
    List.map_congr_left (fun b _ => nansumOpt_map_nanmean b)
  rw [h]

theorem statsAcc_sumSquares (first : BatchS) (bs : List BatchS) :
    ((bs.map computeStatsWorker).foldl mergeStats (initStats first)).sumSquares =
      (bs.flatten.map contribSq).sum := by
  rw [foldl_sumSquares, List.map_map, sum_map_flatten]
  simp only [initStats, zero_add]
  have h : List.map (StatsPartial.sumSquares ∘ computeStatsWorker) bs
      = List.map (fun b => (List.map contribSq b).sum) bs :=
    List.map_congr_left (fun b _ => nansumOpt_map_nanmeanSq b)
  rw [h]

theorem momentsAcc_foldl :
    ∀ (bs : List BatchS) (a : ℕ × ℚ × ℚ),
      bs.foldl momentsStep a =
        (a.1 + bs.flatten.length,
         a.2.1 + (bs.flatten.map contribMean).sum,
         a.2.2 + (bs.flatten.map contribSq).sum)
  | [], a => by simp
  | b :: t, a => by
    simp only [List.foldl, List.flatten_cons]
    rw [momentsAcc_foldl t (momentsStep a b)]
    simp only [momentsStep, List.map_append, List.sum_append, List.length_append,
      nansumOpt_map_nanmean, nansumOpt_map_nanmeanSq]
    refine Prod.ext ?_ (Prod.ext ?_ ?_) <;> simp <;> ring

theorem momentsAcc_eq (bs : List BatchS) :
    momentsAcc bs =
      (bs.flatten.length,
       (bs.flatten.map contribMean).sum,
       (bs.flatten.map contribSq).sum) := by
  rw [momentsAcc, momentsAcc_foldl]
  simp

/-- C1 counterexample: the final reduction is `torch.sqrt` applied directly to
`second_moment - mean ** 2` with no clamp.  At the partial statistic with
counter 1, sum of means 2 and sum of squares 1 the variance is `-3`; the code
produces NaN where the clamped reduction `sqrt(max(variance, 0))` stated by
the claim would produce 0. -/
theorem c1_counterexample_no_clamp :
    finalizeStd pNegVar = none ∧
    stdClampedSpec (finalizeVariance pNegVar) = some 0 ∧
    finalizeStd pNegVar ≠ stdClampedSpec (finalizeVariance pNegVar) := by
  have hv : finalizeVariance pNegVar = -3 := by
    norm_num [finalizeVariance, finalizeMean, pNegVar]
  have h0 : max (-3 : ℚ) 0 = 0 := by norm_num
  refine ⟨?_, ?_, ?_⟩ <;>
    simp [finalizeStd, sqrtNaN, stdClampedSpec, hv, h0]

/-- C1 amended: the code computes `std = sqrt(second_moment - mean ** 2)`
with no clamping, so a negative accumulated radicand would produce NaN; but
in exact arithmetic the variance accumulated from any actual dataset is
nonnegative, hence on every raw dataset with at least one sample (and every
standardized diff dataset with at least one sample) both statistics
procedures produce a well-defined nonnegative standard deviation, no NaN. -/
theorem c1_amended_std_nonneg
    (ds : StatsDataset) (dd : DiffDataset)
    (h1 : ds.standardize = false) (h2 : ds.batches.flatten ≠ [])
    (h3 : dd.standardize = true) (h4 : dd.batches.flatten ≠ []) :
    (∃ st : FeatureStats, computeMeanStdMinMax ds = .ok st ∧
      ∃ v, st.std = some v ∧ 0 ≤ v) ∧
    (∃ ms : ℚ × Option ℚ, computeTimeStepStats dd = .ok ms ∧
      ∃ v, ms.2 = some v ∧ 0 ≤ v) := by
  constructor
  · obtain ⟨f1, r1, hb⟩ : ∃ f r, ds.batches = f :: r := by
      cases h : ds.batches with
      | nil => rw [h] at h2; simp at h2
      | cons f r => exact ⟨f, r, rfl⟩
    have hvar : 0 ≤ finalizeVariance
        ((ds.batches.map computeStatsWorker).foldl mergeStats (initStats f1)) := by
      unfold finalizeVariance finalizeMean
      rw [statsAcc_counter, statsAcc_sumMeans, statsAcc_sumSquares]
      exact variance_nonneg ds.batches.flatten h2
    refine ⟨finalize ((ds.batches.map computeStatsWorker).foldl mergeStats
      (initStats f1)), ?_, ?_⟩
    · simp only [computeMeanStdMinMax, hb, h1]
      simp [← hb]
    · refine ⟨finalizeVariance ((ds.batches.map computeStatsWorker).foldl
        mergeStats (initStats f1)), ?_, hvar⟩
      show finalizeStd _ = _
      unfold finalizeStd sqrtNaN
      rw [if_neg (not_lt.mpr hvar)]
  · obtain ⟨f2, r2, hb2⟩ : ∃ f r, dd.batches = f :: r := by
      cases h : dd.batches with
      | nil => rw [h] at h4; simp at h4
      | cons f r => exact ⟨f, r, rfl⟩
    have hsne : dd.batches.flatten.map diffFlat ≠ [] := by
      intro hc
      exact h4 (List.map_eq_nil_iff.mp hc)
    have hflat : (dd.batches.map (List.map diffFlat)).flatten =
        dd.batches.flatten.map diffFlat := by
      rw [List.map_flatten]
    have hvar : 0 ≤
        (momentsAcc (dd.batches.map (List.map diffFlat))).2.2 /
            ((momentsAcc (dd.batches.map (List.map diffFlat))).1 : ℚ) -
          ((momentsAcc (dd.batches.map (List.map diffFlat))).2.1 /
            ((momentsAcc (dd.batches.map (List.map diffFlat))).1 : ℚ)) ^ 2 := by
      rw [momentsAcc_eq, hflat]
      exact variance_nonneg (dd.batches.flatten.map diffFlat) hsne
    refine ⟨((momentsAcc (dd.batches.map (List.map diffFlat))).2.1 /
        ((momentsAcc (dd.batches.map (List.map diffFlat))).1 : ℚ),
      sqrtNaN ((momentsAcc (dd.batches.map (List.map diffFlat))).2.2 /
          ((momentsAcc (dd.batches.map (List.map diffFlat))).1 : ℚ) -
        ((momentsAcc (dd.batches.map (List.map diffFlat))).2.1 /
          ((momentsAcc (dd.batches.map (List.map diffFlat))).1 : ℚ)) ^ 2)), ?_, ?_⟩
    · simp only [computeTimeStepStats, hb2, h3]
      simp [← hb2]
    · refine ⟨_, ?_, hvar⟩
      unfold sqrtNaN
      rw [if_neg (not_lt.mpr hvar)]

/-- Witness for C1 at concrete one-sample datasets. -/
theorem c1_amended_std_nonneg_witness :
    (∃ st : FeatureStats, computeMeanStdMinMax dsRawW = .ok st ∧
      ∃ v, st.std = some v ∧ 0 ≤ v) ∧
    (∃ ms : ℚ × Option ℚ, computeTimeStepStats ddStdW = .ok ms ∧
      ∃ v, ms.2 = some v ∧ 0 ≤ v) :=
  c1_amended_std_nonneg dsRawW ddStdW rfl (by simp [dsRawW]) rfl
    (by simp [ddStdW])

/-- C2 evaluation at the failing input: on the two-batch dataset whose global
minimum 3 lies in the second sample of the second batch, the code computes a
final min of 4, because `torch.min(…, 1).values[0]` only inspects the first
sample of each worker batch, while the minimum over every sample of every
batch (missing entries replaced by `+inf`) is 3. -/
theorem c2_min_skips_later_samples :
    (computeMeanStdMinMax dsC2).toOption.map FeatureStats.min = some (toQInf 4) ∧
    minList (dsC2.batches.flatten.flatten.map subPosInf) = toQInf 3 ∧
    toQInf 4 ≠ toQInf 3 := by
  refine ⟨?_, by decide, by decide⟩
  decide

/-! Refinement of the rollout loop by its closed-form step sequence. -/

theorem windowSeq_length {ι : Type} (cfg : ARConfig ι) (nInput : ℕ)
    (targets forcings init : List (St ι))
    (hpos : 0 < nInput) (hlen : init.length = nInput) :
    ∀ i, (windowSeq cfg nInput targets forcings init i).length = nInput
  | 0 => hlen
  | i + 1 => by
    have ih := windowSeq_length cfg nInput targets forcings init hpos hlen i
    simp only [windowSeq, List.length_append, List.length_drop, List.length_cons,
      List.length_nil]
    omega

theorem arStep_eq {ι : Type} (cfg : ARConfig ι) (nInput : ℕ)
    (window : List (St ι)) (border forcing : St ι)
    (h : nInput ≤ window.length) (hne : window ≠ []) :
    arStep cfg nInput window border forcing =
      some (stepFormula cfg nInput window border forcing) := by
  obtain ⟨x, hx⟩ : ∃ x, window.getLast? = some x := by
    have hs : window.getLast?.isSome := by simp [List.getLast?_isSome, hne]
    exact Option.isSome_iff_exists.mp hs
  simp only [arStep, takeExact, if_pos h, hx]
  unfold stepFormula
  rw [hx]
  simp

theorem ofFn_shift {α : Type} (g : ℕ → α) (r i : ℕ) :
    List.ofFn (fun j : Fin (r + 1) => g (i + j)) =
      g i :: List.ofFn (fun j : Fin r => g (i + 1 + j)) := by
  rw [List.ofFn_succ]
  simp only [Fin.val_zero, Nat.add_zero, Fin.val_succ]
  congr 1
  congr 1
  funext j
  congr 1
  omega

theorem arLoop_eq {ι : Type} (cfg : ARConfig ι) (nInput : ℕ)
    (targets forcings init : List (St ι))
    (hpos : 0 < nInput) (hlen : init.length = nInput) :
    ∀ (r i : ℕ) (acc : List (St ι)),
      i + r ≤ targets.length → i + r ≤ forcings.length →
      arLoop cfg nInput targets forcings i r
          (windowSeq cfg nInput targets forcings init i) acc =
        some (acc.reverse ++
          List.ofFn (fun j : Fin r =>
            predAt cfg nInput targets forcings init (i + j))) := by
  intro r
  induction r with
  | zero =>
    intro i acc _ _
    simp [arLoop]
  | succ r ih =>
    intro i acc ht hf
    have hti : i < targets.length := by omega
    have hfi : i < forcings.length := by omega
    have htg : targets[i]? = some (targets.getD i (zeroSt ι)) := by
      rw [List.getD_eq_getElem?_getD, List.getElem?_eq_getElem hti]
      rfl
    have hfg : forcings[i]? = some (forcings.getD i (zeroSt ι)) := by
      rw [List.getD_eq_getElem?_getD, List.getElem?_eq_getElem hfi]
      rfl
    have hwlen := windowSeq_length cfg nInput targets forcings init hpos hlen i
    have hwne : windowSeq cfg nInput targets forcings init i ≠ [] := by
      intro hc
      rw [hc] at hwlen
      simp at hwlen
      omega
    have hstep := arStep_eq cfg nInput (windowSeq cfg nInput targets forcings init i)
      (targets.getD i (zeroSt ι)) (forcings.getD i (zeroSt ι))
      (le_of_eq hwlen.symm) hwne
    simp only [arLoop, htg, hfg, hstep]
    cases r with
    | zero =>
      rw [if_pos rfl]
      simp [arLoop, predAt, ofFn_shift (predAt cfg nInput targets forcings init) 0 i]
    | succ r2 =>
      rw [if_neg (Nat.succ_ne_zero r2)]
      have hwnext : (windowSeq cfg nInput targets forcings init i).drop 1 ++
          [stepFormula cfg nInput (windowSeq cfg nInput targets forcings init i)
            (targets.getD i (zeroSt ι)) (forcings.getD i (zeroSt ι))] =
          windowSeq cfg nInput targets forcings init (i + 1) := rfl
      rw [hwnext, ih (i + 1) _ (by omega) (by omega),
        ofFn_shift (predAt cfg nInput targets forcings init) (r2 + 1) i]
      simp only [List.reverse_cons, List.append_assoc, List.singleton_append]
      rfl

theorem commonStep_eq {ι : Type} (cfg : ARConfig ι) (batch : ARBatch ι)
    (init targets forcings : List (St ι))
    (htb : cfg.transformBatch batch = (init, targets, forcings))
    (hpos : 0 < batch.numInputSteps)
    (hinit : init.length = batch.numInputSteps)
    (htgt : batch.numPredSteps ≤ targets.length)
    (hforc : batch.numPredSteps ≤ forcings.length) :
    commonStep cfg batch =
      some (List.ofFn (fun j : Fin batch.numPredSteps =>
          predAt cfg batch.numInputSteps targets forcings init j),
        targets) := by
  have h := arLoop_eq cfg batch.numInputSteps targets forcings init hpos hinit
    batch.numPredSteps 0 [] (by omega) (by omega)
  simp only [windowSeq] at h
  unfold commonStep
  rw [htb]
  show (match arLoop cfg batch.numInputSteps targets forcings 0
      batch.numPredSteps init [] with
    | some preds => some (preds, targets)
    | none => none) = _
  rw [h]
  simp

/-- C6: on every valid batch (window of exactly `num_input_steps` states,
targets and forcing of exactly `num_pred_steps` states) `common_step` runs
exactly `num_pred_steps` iterations and returns the step-ordered prediction
list of length `batch.num_pred_steps` together with the target states exactly
as `transform_batch` produced them. -/
theorem c6_rollout_length_and_targets {ι : Type} (cfg : ARConfig ι)
    (batch : ARBatch ι) (init targets forcings : List (St ι))
    (htb : cfg.transformBatch batch = (init, targets, forcings))
    (hpos : 0 < batch.numInputSteps)
    (hinit : init.length = batch.numInputSteps)
    (htgt : targets.length = batch.numPredSteps)
    (hforc : forcings.length = batch.numPredSteps) :
    ∃ preds, commonStep cfg batch = some (preds, targets) ∧
      preds.length = batch.numPredSteps := by
  refine ⟨_, commonStep_eq cfg batch init targets forcings htb hpos hinit
    (le_of_eq htgt.symm) (le_of_eq hforc.symm), ?_⟩
  exact List.length_ofFn _

/-- Witness for C6 on a concrete two-step batch. -/
theorem c6_rollout_length_and_targets_witness :
    ∃ preds, commonStep cfgW6 batchW6 = some (preds, batchW6.targetStates) ∧
      preds.length = batchW6.numPredSteps :=
  c6_rollout_length_and_targets cfgW6 batchW6 batchW6.initStates
    batchW6.targetStates batchW6.forcingFeatures rfl (by decide) rfl rfl rfl

/-- C4: at every rollout step `i` the state appended by `common_step` equals
`border_mask * target_states[i] + interior_mask * (window[-1] + y * step_diff_std
+ step_diff_mean)` where `y` is the model output on the inputs built from the
current window; in particular for an all-zero model with complementary masks,
the appended state equals the target where `border_mask = 1` and
`window[-1] + step_diff_mean` where `interior_mask = 1`. -/
theorem c4_blend_and_rescale {ι : Type} (cfg : ARConfig ι) (batch : ARBatch ι)
    (init targets forcings : List (St ι))
    (htb : cfg.transformBatch batch = (init, targets, forcings))
    (hpos : 0 < batch.numInputSteps)
    (hinit : init.length = batch.numInputSteps)
    (htgt : batch.numPredSteps ≤ targets.length)
    (hforc : batch.numPredSteps ≤ forcings.length)
    (i : ℕ) (hi : i < batch.numPredSteps) :
    (∃ preds, commonStep cfg batch = some (preds, targets) ∧
      preds[i]? = some (fun p =>
        cfg.borderMask p * (targets.getD i (zeroSt ι)) p +
          cfg.interiorMask p *
            (((windowSeq cfg batch.numInputSteps targets forcings init
                  i).getLast?.getD (zeroSt ι)) p +
              cfg.model
                  ((windowSeq cfg batch.numInputSteps targets forcings init
                    i).take batch.numInputSteps)
                  cfg.statics (forcings.getD i (zeroSt ι)) p *
                cfg.stepDiffStd p +
              cfg.stepDiffMean p))) ∧
    ((∀ s st f p, cfg.model s st f p = 0) →
      (∀ p, cfg.borderMask p + cfg.interiorMask p = 1) →
      ∀ p,
        (cfg.borderMask p = 1 →
          predAt cfg batch.numInputSteps targets forcings init i p =
            (targets.getD i (zeroSt ι)) p) ∧
        (cfg.interiorMask p = 1 →
          predAt cfg batch.numInputSteps targets forcings init i p =
            ((windowSeq cfg batch.numInputSteps targets forcings init
              i).getLast?.getD (zeroSt ι)) p + cfg.stepDiffMean p)) := by
  constructor
  · refine ⟨_, commonStep_eq cfg batch init targets forcings htb hpos hinit
      htgt hforc, ?_⟩
    rw [List.getElem?_ofFn]
    simp only [List.ofFnNthVal]
    rw [dif_pos hi]
    rfl
  · intro hmodel hmask p
    have hsum := hmask p
    constructor
    · intro hb
      have hint : cfg.interiorMask p = 0 := by linarith
      simp [predAt, stepFormula, hmodel, hb, hint]
    · intro hInt
      have hbz : cfg.borderMask p = 0 := by linarith
      simp [predAt, stepFormula, hmodel, hInt, hbz]

/-- Witness for C4 on a concrete one-step batch with a zero model. -/
theorem c4_blend_and_rescale_witness :
    (∃ preds, commonStep cfgW4 batchW4 = some (preds, batchW4.targetStates) ∧
      preds[0]? = some (fun p =>
        cfgW4.borderMask p * (batchW4.targetStates.getD 0 (zeroSt Unit)) p +
          cfgW4.interiorMask p *
            (((windowSeq cfgW4 batchW4.numInputSteps batchW4.targetStates
                  batchW4.forcingFeatures batchW4.initStates
                  0).getLast?.getD (zeroSt Unit)) p +
              cfgW4.model
                  ((windowSeq cfgW4 batchW4.numInputSteps batchW4.targetStates
                    batchW4.forcingFeatures batchW4.initStates
                    0).take batchW4.numInputSteps)
                  cfgW4.statics (batchW4.forcingFeatures.getD 0 (zeroSt Unit)) p *
                cfgW4.stepDiffStd p +
              cfgW4.stepDiffMean p))) ∧
    ((∀ s st f p, cfgW4.model s st f p = 0) →
      (∀ p, cfgW4.borderMask p + cfgW4.interiorMask p = 1) →
      ∀ p,
        (cfgW4.borderMask p = 1 →
          predAt cfgW4 batchW4.numInputSteps batchW4.targetStates
              batchW4.forcingFeatures batchW4.initStates 0 p =
            (batchW4.targetStates.getD 0 (zeroSt Unit)) p) ∧
        (cfgW4.interiorMask p = 1 →
          predAt cfgW4 batchW4.numInputSteps batchW4.targetStates
              batchW4.forcingFeatures batchW4.initStates 0 p =
            ((windowSeq cfgW4 batchW4.numInputSteps batchW4.targetStates
              batchW4.forcingFeatures batchW4.initStates
              0).getLast?.getD (zeroSt Unit)) p + cfgW4.stepDiffMean p)) :=
  c4_blend_and_rescale cfgW4 batchW4 batchW4.initStates batchW4.targetStates
    batchW4.forcingFeatures rfl (by decide) rfl (by decide) (by decide) 0
    (by decide)

/-- C3 counterexample: a batch whose target and forcing sequences hold two
steps while `num_pred_steps` is 1 is shape-inconsistent, yet `common_step`
does not fail: it runs to completion (no shape-mismatch error is raised
before or inside the loop). -/
theorem c3_counterexample_no_shape_error :
    (commonStep cfgC3 batchC3).isSome = true ∧
    batchC3.targetStates.length ≠ batchC3.numPredSteps := by
  constructor
  · rfl
  · decide

/-- C3 amended: `common_step` performs no shape validation before the loop.
Whenever the window is well-formed and the target and forcing sequences hold
at least `num_pred_steps` entries, the rollout silently runs all
`num_pred_steps` steps and returns, truncating any extra target or forcing
steps instead of raising a shape-mismatch error. -/
theorem c3_amended_silent_truncation {ι : Type} (cfg : ARConfig ι)
    (batch : ARBatch ι) (init targets forcings : List (St ι))
    (htb : cfg.transformBatch batch = (init, targets, forcings))
    (hpos : 0 < batch.numInputSteps)
    (hinit : init.length = batch.numInputSteps)
    (htgt : batch.numPredSteps ≤ targets.length)
    (hforc : batch.numPredSteps ≤ forcings.length) :
    ∃ preds, commonStep cfg batch = some (preds, targets) ∧
      preds.length = batch.numPredSteps := by
  refine ⟨_, commonStep_eq cfg batch init targets forcings htb hpos hinit
    htgt hforc, ?_⟩
  exact List.length_ofFn _

/-- Witness for C3 amended at the shape-inconsistent concrete batch. -/
theorem c3_amended_silent_truncation_witness :
    ∃ preds, commonStep cfgC3 batchC3 = some (preds, batchC3.targetStates) ∧
      preds.length = batchC3.numPredSteps :=
  c3_amended_silent_truncation cfgC3 batchC3 batchC3.initStates
    batchC3.targetStates batchC3.forcingFeatures rfl (by decide) rfl
    (by decide) (by decide)

/-- C10: every entry of every array returned by `load_data_from_disk` is
non-NaN, and the entry of the returned stack at date `d` and row `r` is the
input row at the mirrored latitude index with missing entries replaced by 0
(and the trailing feature axis appended). -/
theorem c10_loader_no_nan :
    (∀ fields : List NpArr2,
      ((loadDataFromDisk fields).all (fun dateArr =>
        dateArr.all (fun row => row.all (fun cell =>
          cell.all Option.isSome)))) = true) ∧
    (∀ (fields : List NpArr2) (arr : NpArr2) (d r : ℕ) (row : List Val),
      fields[d]? = some arr → arr[r]? = some row → r < arr.length →
      ∃ b, (loadDataFromDisk fields)[d]? = some b ∧
        b[arr.length - 1 - r]? =
          some ((row.map nanToNum0).map (fun v => [v]))) := by
  constructor
  · intro fields
    rw [List.all_eq_true]
    intro dateArr hdate
    rw [List.all_eq_true]
    intro cellRow hrow
    rw [List.all_eq_true]
    intro cell hcell
    rw [List.all_eq_true]
    intro x hx
    simp only [loadDataFromDisk, List.mem_map] at hdate
    obtain ⟨arr, _, rfl⟩ := hdate
    simp only [List.mem_map] at hrow
    obtain ⟨row2, hrow2, rfl⟩ := hrow
    simp only [List.mem_map] at hcell
    obtain ⟨v, hv, rfl⟩ := hcell
    simp only [List.mem_singleton] at hx
    subst hx
    rw [List.mem_reverse] at hrow2
    simp only [List.mem_map] at hrow2
    obtain ⟨row0, _, rfl⟩ := hrow2
    simp only [List.mem_map] at hv
    obtain ⟨u, _, rfl⟩ := hv
    rfl
  · intro fields arr d r row hd hr hlt
    refine ⟨((arr.map (fun rw0 => rw0.map nanToNum0)).reverse).map
      (fun rw0 => rw0.map (fun v => [v])), ?_, ?_⟩
    · simp only [loadDataFromDisk, List.getElem?_map, hd]
      rfl
    · have hlen : arr.length - 1 - r <
          (arr.map (fun rw0 => rw0.map nanToNum0)).length := by
        rw [List.length_map]
        omega
      rw [List.getElem?_map, List.getElem?_reverse hlen]
      rw [List.length_map]
      have hidx : arr.length - 1 - (arr.length - 1 - r) = r := by omega
      rw [hidx, List.getElem?_map, hr]
      rfl

/-- Witness for C10 at a concrete one-date field with a missing entry. -/
theorem c10_loader_no_nan_witness :
    ∃ b, (loadDataFromDisk fieldsW10)[0]? = some b ∧
      b[([[some 1, none]] : NpArr2).length - 1 - 0]? =
        some ((([some 1, none] : List Val).map nanToNum0).map (fun v => [v])) :=
  c10_loader_no_nan.2 fieldsW10 [[some 1, none]] 0 0 [some 1, none] rfl rfl
    (by decide)

end Py4cast
